import Mathlib

/-!
# ProgPoW internals (`lib/ethash/progpow-internal.hpp`)

A shallow embedding of the declarations of `progpow-internal.hpp`.

* Machine integers are natural numbers; a `size_t` cursor wraps modulo `2 ^ w`, where `w` is the
  width of `size_t` (at least 16 by the C++ standard, 32 or 64 on the supported targets).
* A `std::array<uint32_t, num_regs>` is a function `Fin num_regs → Nat`, so an index into it
  carries the proof that it is in bounds.
* `next_dst` / `next_src` are defined inline in the header and are translated from it. The other
  functions are only declared there; each of them is modelled from the specification and says so
  in its doc comment.
-/

namespace progpow

/-! ## Constants (header lines 15-18) -/

/-- The constant `static constexpr int period_length = 50`. -/
def period_length : Int := 50

/-- The constant `static constexpr uint32_t num_regs = 32`. -/
def num_regs : Nat := 32

/-- The constant `static constexpr size_t l1_cache_size = 16 * 1024`. -/
def l1_cache_size : Nat := 16 * 1024

/-- The value of `sizeof(uint32_t)`. -/
def sizeof_uint32_t : Nat := 4

/-- The constant `l1_cache_num_items = l1_cache_size / sizeof(uint32_t)`. -/
def l1_cache_num_items : Nat := l1_cache_size / sizeof_uint32_t

/-- A `std::array<uint32_t, num_regs>`. -/
abbrev reg_seq : Type := Fin num_regs → Nat

/-! ## `mix_rng_state` (header lines 42-57) -/

/-- The class `mix_rng_state`. The type `kiss99` of the generator comes from `kiss99.hpp` and is a
parameter. The four private members keep their names; the cursors are `size_t` values. -/
structure mix_rng_state (kiss99 : Type) where
  rng : kiss99
  dst_counter : Nat
  dst_seq : reg_seq
  src_counter : Nat
  src_seq : reg_seq

namespace mix_rng_state

variable {kiss99 : Type}

/-- The index `(dst_counter++) % num_regs` read by `next_dst`. -/
def dst_index (s : mix_rng_state kiss99) : Nat := s.dst_counter % num_regs

/-- The index `(src_counter++) % num_regs` read by `next_src`. -/
def src_index (s : mix_rng_state kiss99) : Nat := s.src_counter % num_regs

/-- The member `uint32_t next_dst() noexcept { return dst_seq[(dst_counter++) % num_regs]; }`,
with `w` the width of `size_t`: the returned value and the state after the call. -/
def next_dst (w : Nat) (s : mix_rng_state kiss99) : Nat × mix_rng_state kiss99 :=
  (s.dst_seq ⟨s.dst_index, Nat.mod_lt s.dst_counter (by decide)⟩,
    { s with dst_counter := (s.dst_counter + 1) % 2 ^ w })

/-- The member `uint32_t next_src() noexcept { return src_seq[(src_counter++) % num_regs]; }`,
with `w` the width of `size_t`: the returned value and the state after the call. -/
def next_src (w : Nat) (s : mix_rng_state kiss99) : Nat × mix_rng_state kiss99 :=
  (s.src_seq ⟨s.src_index, Nat.mod_lt s.src_counter (by decide)⟩,
    { s with src_counter := (s.src_counter + 1) % 2 ^ w })

/-- The state after `k` consecutive calls of `next_dst`. -/
def after_dst (w : Nat) : Nat → mix_rng_state kiss99 → mix_rng_state kiss99
  | 0, s => s
  | k + 1, s => after_dst w k (next_dst w s).2

/-- The state after `k` consecutive calls of `next_src`. -/
def after_src (w : Nat) : Nat → mix_rng_state kiss99 → mix_rng_state kiss99
  | 0, s => s
  | k + 1, s => after_src w k (next_src w s).2

/-- The value returned by the `n`-th of `n` consecutive calls of `next_dst` (calls are counted
from 1). -/
def nth_dst (w : Nat) (s : mix_rng_state kiss99) (n : Nat) : Nat :=
  (next_dst w (after_dst w (n - 1) s)).1

/-- The value returned by the `n`-th of `n` consecutive calls of `next_src` (calls are counted
from 1). -/
def nth_src (w : Nat) (s : mix_rng_state kiss99) (n : Nat) : Nat :=
  (next_src w (after_src w (n - 1) s)).1

end mix_rng_state

/-! ## Construction of a `mix_rng_state` (declared at header line 45) -/

/-- The effect of `std::swap(a[i], a[j])` on a `std::array<uint32_t, num_regs>`. -/
def swap (a : reg_seq) (i j : Fin num_regs) : reg_seq :=
  fun k => if k = i then a j else if k = j then a i else a k

/-- The identity sequence `0, 1, ..., num_regs - 1`. -/
def identity_seq : reg_seq := fun i => i.val

/-- Modelled from the spec: the shuffle loop of the constructor of `mix_rng_state`, whose body is
not in the header. "Run a Fisher–Yates-style shuffle over each using words drawn from the linear
RNG (`index = rng_word % remaining_length`, swap with the element at that index, proceeding from
the end of the sequence backward)": with `i` the remaining length, running from `num_regs` down
to 2, the last remaining element `i - 1` of each sequence is swapped with the element at
`word % i`, one fresh word per swap. The generator of `kiss99.hpp` is the parameter `next`, which
returns the next word and the advanced generator. -/
def shuffle {kiss99 : Type} (next : kiss99 → Nat × kiss99) :
    (i : Nat) → i ≤ num_regs → kiss99 × reg_seq × reg_seq → kiss99 × reg_seq × reg_seq
  | 0, _, st => st
  | 1, _, st => st
  | i + 2, h, (rng, dst, src) =>
    let d := next rng
    let dst1 := swap dst ⟨i + 1, by omega⟩
      ⟨d.1 % (i + 2), lt_of_lt_of_le (Nat.mod_lt _ (by omega)) h⟩
    let e := next d.2
    let src1 := swap src ⟨i + 1, by omega⟩
      ⟨e.1 % (i + 2), lt_of_lt_of_le (Nat.mod_lt _ (by omega)) h⟩
    shuffle next (i + 1) (by omega) (e.2, dst1, src1)

/-- Modelled from the spec: the constructor `explicit mix_rng_state(uint64_t seed)`, declared in
the header and defined outside it (the class name itself is the structure here). "Initialize
both the destination and source sequences as the identity permutation of {0..31}; run a
Fisher–Yates-style shuffle over each using words drawn from the linear RNG". The seeding of the
generator from the 64-bit seed (`seed_rng`) and the generator step (`next`) belong to
`kiss99.hpp` and are parameters. Both cursors start at 0, as the member initialisers of the
header say. -/
def mix_rng_state.construct {kiss99 : Type} (seed_rng : Nat → kiss99)
    (next : kiss99 → Nat × kiss99) (seed : Nat) : mix_rng_state kiss99 :=
  let r := shuffle next num_regs (le_refl _) (seed_rng seed, identity_seq, identity_seq)
  { rng := r.1, dst_counter := 0, dst_seq := r.2.1, src_counter := 0, src_seq := r.2.2 }

/-- A sequence is a permutation of `{0, ..., num_regs - 1}`: every index below `num_regs` occurs
in it exactly once. -/
def is_permutation (a : reg_seq) : Prop :=
  ∀ v, v < num_regs → (List.ofFn a).count v = 1

instance (a : reg_seq) : Decidable (is_permutation a) :=
  inferInstanceAs (Decidable (∀ v, v < num_regs → (List.ofFn a).count v = 1))

/-- Modelled from the spec: the seed of the program of a block. "Compute the period index as
`block_number / period_length`": the division of the `int` block number truncates toward zero,
and the index becomes the `uint64_t` seed of the constructor. -/
def program_seed (block_number : Int) : Nat :=
  (Int.tdiv block_number period_length % 2 ^ 64).toNat

/-- Modelled from the spec: the mix RNG state built for a block number, "construct the mix RNG
state ... for that period". -/
def program_state {kiss99 : Type} (seed_rng : Nat → kiss99) (next : kiss99 → Nat × kiss99)
    (block_number : Int) : mix_rng_state kiss99 :=
  mix_rng_state.construct seed_rng next (program_seed block_number)

/-! ## Epoch context and L1 cache (declared at header line 63) -/

/-- Modelled from the spec: the type `epoch_context` comes from `ethash/ethash.hpp`. It is an
"externally owned, read-only dataset of 32-bit words plus dataset size metadata": the words of
the dataset in index order, the word count being the length of the list. -/
structure epoch_context where
  dataset : List Nat

/-- Modelled from the spec: the accessor that, "given a 32-bit word index, returns the
corresponding dataset word", the index wrapping at "the dataset's total word count". A dataset
of no words has nothing to return (a precondition violation in the spec); the value is 0
there. -/
def epoch_context.word (context : epoch_context) (index : Nat) : Nat :=
  context.dataset.getD (index % context.dataset.length) 0

/-- The array `uint32_t cache[l1_cache_num_items]`. -/
abbrev l1_cache : Type := Fin l1_cache_num_items → Nat

/-- Modelled from the spec: the first `n` iterations of the copy loop of `build_l1_cache`: entry
`i` of the array is overwritten with dataset word `i`, for `i = 0, ..., n - 1` in this order. -/
def build_l1_cache_loop (context : epoch_context) :
    (n : Nat) → n ≤ l1_cache_num_items → l1_cache → l1_cache
  | 0, _, cache => cache
  | n + 1, h, cache =>
    Function.update (build_l1_cache_loop context n (Nat.le_of_succ_le h) cache) ⟨n, h⟩
      (context.word n)

/-- Modelled from the spec: `build_l1_cache(cache, context)`, declared in the header. It "fills
the fixed-size output array by copying the first `l1_cache_num_items` 32-bit words addressable
from the epoch dataset (wrapping/truncating per the dataset's own indexing rule ...)". The first
argument is the contents of the array before the call, the value is its contents after. -/
def build_l1_cache (cache : l1_cache) (context : epoch_context) : l1_cache :=
  build_l1_cache_loop context l1_cache_num_items (le_refl _) cache

/-! ## Operator families (declared at header lines 59 and 61) -/

/-- Addition of `uint32_t` values. -/
def add32 (a b : Nat) : Nat := (a + b) % 2 ^ 32

/-- Multiplication of `uint32_t` values. -/
def mul32 (a b : Nat) : Nat := (a * b) % 2 ^ 32

/-- The upper 32 bits of the 64-bit product of two `uint32_t` values. -/
def mul_hi32 (a b : Nat) : Nat := (a * b) % 2 ^ 64 / 2 ^ 32

/-- Left rotation of a `uint32_t` by `n mod 32` bits. -/
def rotl32 (a n : Nat) : Nat :=
  ((a <<< (n % 32)) % 2 ^ 32) ||| ((a % 2 ^ 32) >>> (32 - n % 32))

/-- Right rotation of a `uint32_t` by `n mod 32` bits. -/
def rotr32 (a n : Nat) : Nat :=
  ((a % 2 ^ 32) >>> (n % 32)) ||| ((a <<< (32 - n % 32)) % 2 ^ 32)

/-- Modelled from the spec: the number of operations of `random_math` ("the reference defines
11"). -/
def math_operation_count : Nat := 11

/-- Modelled from the spec: the number of formulas of `random_merge` ("reference defines 4"). -/
def merge_count : Nat := 4

/-- Modelled from the spec: the operation table of `random_math`, "add, multiply, multiply-high
(upper 32 bits of the 64-bit product), min, and'd, or'd, xor'd, left/right rotate by `b mod 32`,
and two more", in the order in which the spec names them. The spec does not say what the last
two operations are; they are the parameters `op9` and `op10`. -/
def math_operation (op9 op10 : Nat → Nat → Nat) :
    Fin math_operation_count → Nat → Nat → Nat
  | ⟨0, _⟩ => add32
  | ⟨1, _⟩ => mul32
  | ⟨2, _⟩ => mul_hi32
  | ⟨3, _⟩ => fun a b => min a b
  | ⟨4, _⟩ => fun a b => a &&& b
  | ⟨5, _⟩ => fun a b => a ||| b
  | ⟨6, _⟩ => fun a b => a ^^^ b
  | ⟨7, _⟩ => rotl32
  | ⟨8, _⟩ => rotr32
  | ⟨9, _⟩ => op9
  | ⟨_ + 10, _⟩ => op10

/-- Modelled from the spec: `random_math(a, b, selector)`, declared in the header: the operation
"indexed by `selector mod operation_count`", applied to `a` and `b`. -/
def random_math (op9 op10 : Nat → Nat → Nat) (a b selector : Nat) : Nat :=
  math_operation op9 op10 ⟨selector % math_operation_count, Nat.mod_lt _ (by decide)⟩ a b

/-- Modelled from the spec: the index `selector mod merge_count` of the formula that
`random_merge` applies. -/
def merge_index (selector : Nat) : Fin merge_count :=
  ⟨selector % merge_count, Nat.mod_lt _ (by decide)⟩

/-- Modelled from the spec: `random_merge(a, b, selector)`, declared in the header; the value is
the one left in `a`. It "combines `b` into `a` in place using one of a fixed set (reference
defines 4) of merge formulas ... selected by `selector mod merge_count`". A merge formula
combines `b` into `a`: it is a function of `a` and `b`, and the selector enters only through
the choice of the formula. The spec names the formulas by example only, so the table of the
four formulas is the parameter `formula`. -/
def random_merge (formula : Fin merge_count → Nat → Nat → Nat) (a b selector : Nat) : Nat :=
  formula (merge_index selector) a b

/-! ## Keccak-f800 hash pair (declared at header lines 29 and 34) -/

/-- Modelled from the spec: the type `hash256` comes from `ethash/ethash.hpp`; 256-bit values
are "fixed 32-byte sequences". -/
abbrev hash256 : Type := Fin 32 → Nat

/-- Modelled from the spec: the 800-bit state of the Keccak-f[800] permutation, as 100 bytes. -/
abbrev keccak_state : Type := Fin 100 → Nat

/-- Modelled from the spec: the collaborators of the two hash functions that the spec names and
does not define. `absorb` loads the 576 input bits "assembled from the three arguments with no
padding" into the 800-bit state; `keccak_f800` runs "the fixed number of Keccak-f800 rounds". -/
structure keccak where
  absorb : hash256 → Nat → hash256 → keccak_state
  keccak_f800 : keccak_state → keccak_state

/-- Modelled from the spec: the state after the single permutation call on the three arguments
("a fixed-length, single-block permutation call"). -/
def keccak.permuted (K : keccak) (header_hash : hash256) (nonce : Nat) (mix_hash : hash256) :
    keccak_state :=
  K.keccak_f800 (K.absorb header_hash nonce mix_hash)

/-- Modelled from the spec: `keccak_progpow_256(header_hash, nonce, mix_hash)`, declared in the
header: "extract the first 256 ... bits of the resulting state as output". -/
def keccak_progpow_256 (K : keccak) (header_hash : hash256) (nonce : Nat) (mix_hash : hash256) :
    hash256 :=
  fun i => K.permuted header_hash nonce mix_hash ⟨i.val, by omega⟩

/-- The unsigned integer whose big-endian bytes are the given ones. -/
def be_uint (bytes : List Nat) : Nat :=
  bytes.foldl (fun acc byte => acc * 256 + byte) 0

/-- Modelled from the spec: `keccak_progpow_64(header_hash, nonce, mix_hash)`, declared in the
header: the same permutation call, "extract the first ... 64 bits of the resulting state as
output", returned as a `uint64_t` read big-endian. -/
def keccak_progpow_64 (K : keccak) (header_hash : hash256) (nonce : Nat) (mix_hash : hash256) :
    Nat :=
  be_uint (List.ofFn fun i : Fin 8 => K.permuted header_hash nonce mix_hash ⟨i.val, by omega⟩)

/-! ## Main hash loop (declared at header line 65) -/

/-- Modelled from the spec: the type `result` comes from `ethash/ethash.hpp`; an "immutable pair
(final 256-bit digest, 256-bit mix hash)". -/
structure result where
  final_digest : hash256
  mix_digest : hash256

/-- Modelled from the spec: the parts of the mixing engine that the spec describes without
defining them. `seed_rng` and `next` are the generator of `kiss99.hpp`; `init_mix` derives "the
per-lane initial register state deterministically from `seed_hash`"; `round` is the round body,
given the epoch context, the L1 cache, the program state of the period, the round number and the
lanes; `reduce` folds "every lane's register file down to a single 256-bit mix digest". -/
structure mix_engine (kiss99 lanes : Type) where
  seed_rng : Nat → kiss99
  next : kiss99 → Nat × kiss99
  init_mix : hash256 → lanes
  round : epoch_context → l1_cache → mix_rng_state kiss99 → Nat → lanes → lanes
  reduce : lanes → hash256

/-- Modelled from the spec: the number of rounds of the main loop ("reference: 64"). -/
def num_rounds : Nat := 64

/-- The all-zero `hash256`. -/
def zero_hash : hash256 := fun _ => 0

/-- Modelled from the spec: `hash(context, block_number, header_hash, nonce)`, declared in the
header, following the five steps of the main hash loop: the seed hash
`keccak_progpow_256(header_hash, nonce, zero)` and the lanes derived from it; the program state
and the L1 cache of the period; `num_rounds` rounds; the reduction to the mix digest; the final
hash `keccak_progpow_256(header_hash, nonce, mix_digest)`. The argument `cache_buffer` is what
the storage of the L1 cache array holds when the call starts. -/
def hash {kiss99 lanes : Type} (K : keccak) (E : mix_engine kiss99 lanes)
    (cache_buffer : l1_cache) (context : epoch_context) (block_number : Int)
    (header_hash : hash256) (nonce : Nat) : result :=
  let seed_hash := keccak_progpow_256 K header_hash nonce zero_hash
  let mix := E.init_mix seed_hash
  let state := program_state E.seed_rng E.next block_number
  let cache := build_l1_cache cache_buffer context
  let mix := (List.range num_rounds).foldl (fun m r => E.round context cache state r m) mix
  let mix_digest := E.reduce mix
  { final_digest := keccak_progpow_256 K header_hash nonce mix_digest
    mix_digest := mix_digest }

/-! ## Invocations of `hash` and the program of a period -/

/-- Modelled from the spec: the program of a period kept from one invocation to the next, "an
optional, caller-owned program cache keyed by period index, holding `(mix_rng_state,
l1_cache)`". -/
structure program_cache (kiss99 : Type) where
  period : Int
  state : mix_rng_state kiss99
  cache : l1_cache

/-- Modelled from the spec: steps 1, 3, 4 and 5 of the main hash loop, run with a given mix RNG
state and a given L1 cache: the seed hash and the lanes derived from it, `num_rounds` rounds,
the reduction to the mix digest and the final hash. -/
def hash_with_program {kiss99 lanes : Type} (K : keccak) (E : mix_engine kiss99 lanes)
    (state : mix_rng_state kiss99) (cache : l1_cache) (context : epoch_context)
    (header_hash : hash256) (nonce : Nat) : result :=
  let seed_hash := keccak_progpow_256 K header_hash nonce zero_hash
  let mix := E.init_mix seed_hash
  let mix := (List.range num_rounds).foldl (fun m r => E.round context cache state r m) mix
  let mix_digest := E.reduce mix
  { final_digest := keccak_progpow_256 K header_hash nonce mix_digest
    mix_digest := mix_digest }

/-- Modelled from the spec: the program that an invocation constructs for its block number,
keyed by "the period index ... `block_number / period_length`": the mix RNG state of the period
and the L1 cache built from the epoch context into the storage `cache_buffer`. -/
def build_program {kiss99 lanes : Type} (E : mix_engine kiss99 lanes) (cache_buffer : l1_cache)
    (context : epoch_context) (block_number : Int) : program_cache kiss99 :=
  { period := Int.tdiv block_number period_length
    state := program_state E.seed_rng E.next block_number
    cache := build_l1_cache cache_buffer context }

/-- Modelled from the spec: step 2 of the main hash loop, "construct (or reuse, if the period
hasn't changed since the last invocation) the mix RNG state and the L1 cache for that period".
The argument `last` is the program left by the last invocation, if there was one. -/
def select_program {kiss99 lanes : Type} (E : mix_engine kiss99 lanes)
    (last : Option (program_cache kiss99)) (cache_buffer : l1_cache) (context : epoch_context)
    (block_number : Int) : program_cache kiss99 :=
  match last with
  | some p =>
    if p.period = Int.tdiv block_number period_length then p
    else build_program E cache_buffer context block_number
  | none => build_program E cache_buffer context block_number

/-- Modelled from the spec: one invocation of `hash` in a run of invocations, with the reuse of
step 2: the result, and the program that this invocation leaves for the next one. -/
def hash_reusing {kiss99 lanes : Type} (K : keccak) (E : mix_engine kiss99 lanes)
    (last : Option (program_cache kiss99)) (cache_buffer : l1_cache) (context : epoch_context)
    (block_number : Int) (header_hash : hash256) (nonce : Nat) :
    result × program_cache kiss99 :=
  let p := select_program E last cache_buffer context block_number
  (hash_with_program K E p.state p.cache context header_hash nonce, p)

/-- The values returned by 32 consecutive calls of `next_dst`, the calls `m + 1, ..., m + 32`
counted from the state `s`, in call order. -/
def window_dst {kiss99 : Type} (w : Nat) (s : mix_rng_state kiss99) (m : Nat) : List Nat :=
  (List.range num_regs).map fun k => s.nth_dst w (m + k + 1)

/-- The values returned by 32 consecutive calls of `next_src`, the calls `m + 1, ..., m + 32`
counted from the state `s`, in call order. -/
def window_src {kiss99 : Type} (w : Nat) (s : mix_rng_state kiss99) (m : Nat) : List Nat :=
  (List.range num_regs).map fun k => s.nth_src w (m + k + 1)

/-- A schedule of calls on one state runs them in order, `true` standing for a call of
`next_dst` and `false` for a call of `next_src`: the values returned by the calls of `next_dst`,
in call order. -/
def dst_trace {kiss99 : Type} (w : Nat) : List Bool → mix_rng_state kiss99 → List Nat
  | [], _ => []
  | true :: calls, s => (s.next_dst w).1 :: dst_trace w calls (s.next_dst w).2
  | false :: calls, s => dst_trace w calls (s.next_src w).2

/-- The values returned by the calls of `next_src` of a schedule (`true` for `next_dst`, `false`
for `next_src`), in call order. -/
def src_trace {kiss99 : Type} (w : Nat) : List Bool → mix_rng_state kiss99 → List Nat
  | [], _ => []
  | true :: calls, s => src_trace w calls (s.next_dst w).2
  | false :: calls, s => (s.next_src w).1 :: src_trace w calls (s.next_src w).2

/-! ## Cursor arithmetic -/

/-- Reducing a cursor modulo `2 ^ w` does not change its residue modulo `num_regs` once `size_t`
has at least five bits. -/
theorem wrap_mod_num_regs (w : Nat) (hw : 5 ≤ w) (c : Nat) :
    c % 2 ^ w % num_regs = c % num_regs := by
  have h : num_regs ∣ 2 ^ w := by
    have : num_regs = 2 ^ 5 := by decide
    rw [this]
    exact Nat.pow_dvd_pow 2 hw
  exact Nat.mod_mod_of_dvd c h

theorem mix_rng_state.after_dst_dst_seq {kiss99 : Type} (w : Nat) (k : Nat)
    (s : mix_rng_state kiss99) :
    (mix_rng_state.after_dst w k s).dst_seq = s.dst_seq := by
  induction k generalizing s with
  | zero => rfl
  | succ k ih => simp [mix_rng_state.after_dst, ih, mix_rng_state.next_dst]

theorem mix_rng_state.after_src_src_seq {kiss99 : Type} (w : Nat) (k : Nat)
    (s : mix_rng_state kiss99) :
    (mix_rng_state.after_src w k s).src_seq = s.src_seq := by
  induction k generalizing s with
  | zero => rfl
  | succ k ih => simp [mix_rng_state.after_src, ih, mix_rng_state.next_src]

/-- After `k` calls the destination cursor has the residue of `dst_counter + k`. -/
theorem mix_rng_state.after_dst_counter_mod {kiss99 : Type} (w : Nat) (hw : 5 ≤ w) (k : Nat)
    (s : mix_rng_state kiss99) :
    (mix_rng_state.after_dst w k s).dst_counter % num_regs
      = (s.dst_counter + k) % num_regs := by
  induction k generalizing s with
  | zero => rfl
  | succ k ih =>
    simp only [mix_rng_state.after_dst]
    rw [ih]
    simp only [mix_rng_state.next_dst]
    rw [Nat.add_mod, wrap_mod_num_regs w hw, ← Nat.add_mod]
    congr 1
    omega

/-- After `k` calls the source cursor has the residue of `src_counter + k`. -/
theorem mix_rng_state.after_src_counter_mod {kiss99 : Type} (w : Nat) (hw : 5 ≤ w) (k : Nat)
    (s : mix_rng_state kiss99) :
    (mix_rng_state.after_src w k s).src_counter % num_regs
      = (s.src_counter + k) % num_regs := by
  induction k generalizing s with
  | zero => rfl
  | succ k ih =>
    simp only [mix_rng_state.after_src]
    rw [ih]
    simp only [mix_rng_state.next_src]
    rw [Nat.add_mod, wrap_mod_num_regs w hw, ← Nat.add_mod]
    congr 1
    omega

/-- The `n`-th call of `next_dst` reads `dst_seq` at the residue of `dst_counter + (n - 1)`. -/
theorem mix_rng_state.nth_dst_eq {kiss99 : Type} (w : Nat) (hw : 5 ≤ w)
    (s : mix_rng_state kiss99) (n : Nat) :
    mix_rng_state.nth_dst w s n
      = s.dst_seq ⟨(s.dst_counter + (n - 1)) % num_regs, Nat.mod_lt _ (by decide)⟩ := by
  simp only [mix_rng_state.nth_dst, mix_rng_state.next_dst, mix_rng_state.dst_index,
    mix_rng_state.after_dst_dst_seq]
  congr 1
  exact Fin.ext (after_dst_counter_mod w hw (n - 1) s)

/-- The `n`-th call of `next_src` reads `src_seq` at the residue of `src_counter + (n - 1)`. -/
theorem mix_rng_state.nth_src_eq {kiss99 : Type} (w : Nat) (hw : 5 ≤ w)
    (s : mix_rng_state kiss99) (n : Nat) :
    mix_rng_state.nth_src w s n
      = s.src_seq ⟨(s.src_counter + (n - 1)) % num_regs, Nat.mod_lt _ (by decide)⟩ := by
  simp only [mix_rng_state.nth_src, mix_rng_state.next_src, mix_rng_state.src_index,
    mix_rng_state.after_src_src_seq]
  congr 1
  exact Fin.ext (after_src_counter_mod w hw (n - 1) s)


/-! ## Claims about the cursors -/

/-- C1. Cursor cycling: for every state (any contents of the sequences, any cursor value, a
cursor at the top of the `size_t` range included) and every `n ≥ 1`, the `n`-th and the
`(n + 32)`-th consecutive call of `next_dst` return the same value, and so do those of
`next_src`. The width `w` of `size_t` is any width of at least five bits. -/
theorem cursor_cycling (kiss99 : Type) (w : Nat) (hw : 5 ≤ w) (s : mix_rng_state kiss99)
    (n : Nat) (hn : 1 ≤ n) :
    s.nth_dst w n = s.nth_dst w (n + 32) ∧ s.nth_src w n = s.nth_src w (n + 32) := by
  have key : ∀ c : Nat, (c + (n + 32 - 1)) % num_regs = (c + (n - 1)) % num_regs := by
    intro c
    have : c + (n + 32 - 1) = c + (n - 1) + num_regs := by
      simp only [num_regs]; omega
    rw [this, Nat.add_mod_right]
  constructor
  · rw [mix_rng_state.nth_dst_eq w hw, mix_rng_state.nth_dst_eq w hw]
    congr 1
    exact Fin.ext (key s.dst_counter).symm
  · rw [mix_rng_state.nth_src_eq w hw, mix_rng_state.nth_src_eq w hw]
    congr 1
    exact Fin.ext (key s.src_counter).symm

/-- Witness of C1: a 64-bit `size_t`, both cursors at `2 ^ 64 - 1` (the next increment wraps),
calls 1 and 33. -/
theorem cursor_cycling_witness :
    (5 ≤ 64 ∧ 1 ≤ 1) ∧
      ((mix_rng_state.mk () (2 ^ 64 - 1) (fun i => 31 - i.val) (2 ^ 64 - 1)
            (fun i => i.val)).nth_dst 64 1
          = (mix_rng_state.mk () (2 ^ 64 - 1) (fun i => 31 - i.val) (2 ^ 64 - 1)
            (fun i => i.val)).nth_dst 64 (1 + 32) ∧
        (mix_rng_state.mk () (2 ^ 64 - 1) (fun i => 31 - i.val) (2 ^ 64 - 1)
            (fun i => i.val)).nth_src 64 1
          = (mix_rng_state.mk () (2 ^ 64 - 1) (fun i => 31 - i.val) (2 ^ 64 - 1)
            (fun i => i.val)).nth_src 64 (1 + 32)) :=
  ⟨⟨by decide, by decide⟩, cursor_cycling Unit 64 (by decide) _ 1 (by decide)⟩

/-- C2. For every state, `next_dst` returns `dst_seq[dst_counter mod 32]`, read at the cursor
value before the call, and leaves `dst_counter` incremented by exactly one as a `size_t`: the new
value is `dst_counter + 1` reduced modulo `2 ^ w`, that is, one more than the old value in the
ring of `w`-bit words. `next_src` does the same with `src_seq` and `src_counter`. -/
theorem next_returns_entry_and_increments (kiss99 : Type) (w : Nat)
    (s : mix_rng_state kiss99) :
    ((s.next_dst w).1 = s.dst_seq ⟨s.dst_counter % 32, Nat.mod_lt _ (by decide)⟩ ∧
        (s.next_dst w).2.dst_counter = (s.dst_counter + 1) % 2 ^ w ∧
        ((s.next_dst w).2.dst_counter : ZMod (2 ^ w)) = (s.dst_counter : ZMod (2 ^ w)) + 1) ∧
      ((s.next_src w).1 = s.src_seq ⟨s.src_counter % 32, Nat.mod_lt _ (by decide)⟩ ∧
        (s.next_src w).2.src_counter = (s.src_counter + 1) % 2 ^ w ∧
        ((s.next_src w).2.src_counter : ZMod (2 ^ w)) = (s.src_counter : ZMod (2 ^ w)) + 1) := by
  refine ⟨⟨rfl, rfl, ?_⟩, ⟨rfl, rfl, ?_⟩⟩
  · simp [mix_rng_state.next_dst]
  · simp [mix_rng_state.next_src]

/-! ## Permutations -/

theorem swap_eq_comp (a : reg_seq) (i j : Fin num_regs) : swap a i j = a ∘ Equiv.swap i j := by
  funext k
  simp only [swap, Function.comp, Equiv.swap_apply_def]
  split_ifs <;> rfl

/-- Swapping two entries permutes the list of entries. -/
theorem swap_perm (a : reg_seq) (i j : Fin num_regs) :
    (List.ofFn (swap a i j)).Perm (List.ofFn a) := by
  rw [swap_eq_comp]
  exact Equiv.Perm.ofFn_comp_perm (Equiv.swap i j) a

/-- The shuffle loop permutes the entries of both sequences. -/
theorem shuffle_perm {kiss99 : Type} (next : kiss99 → Nat × kiss99) :
    ∀ (i : Nat) (h : i ≤ num_regs) (st : kiss99 × reg_seq × reg_seq),
      (List.ofFn (shuffle next i h st).2.1).Perm (List.ofFn st.2.1) ∧
        (List.ofFn (shuffle next i h st).2.2).Perm (List.ofFn st.2.2)
  | 0, _, _ => ⟨List.Perm.refl _, List.Perm.refl _⟩
  | 1, _, _ => ⟨List.Perm.refl _, List.Perm.refl _⟩
  | i + 2, h, (rng, dst, src) => by
    simp only [shuffle]
    have ih := shuffle_perm next (i + 1) (by omega)
      ((next (next rng).2).2,
        swap dst ⟨i + 1, by omega⟩
          ⟨(next rng).1 % (i + 2), lt_of_lt_of_le (Nat.mod_lt _ (by omega)) h⟩,
        swap src ⟨i + 1, by omega⟩
          ⟨(next (next rng).2).1 % (i + 2), lt_of_lt_of_le (Nat.mod_lt _ (by omega)) h⟩)
    exact ⟨ih.1.trans (swap_perm _ _ _), ih.2.trans (swap_perm _ _ _)⟩

theorem identity_seq_list : List.ofFn identity_seq = List.range num_regs := by
  simp only [identity_seq, List.ofFn_eq_map, num_regs]
  exact List.map_coe_finRange 32

/-- A sequence whose entries are a rearrangement of `0, ..., num_regs - 1` is a permutation. -/
theorem is_permutation_of_perm (a : reg_seq)
    (h : (List.ofFn a).Perm (List.range num_regs)) : is_permutation a := by
  intro v hv
  rw [h.count_eq]
  exact List.count_eq_one_of_mem (List.nodup_range num_regs) (List.mem_range.2 hv)

/-- C3. Permutation validity: for every seed (and whatever words the generator yields), the
`dst_seq` and `src_seq` of the constructed state are each a permutation of `{0, ..., 31}`: every
index occurs exactly once, and the entries, listed in order, are a rearrangement of
`0, 1, ..., 31`. -/
theorem permutation_validity (kiss99 : Type) (seed_rng : Nat → kiss99)
    (next : kiss99 → Nat × kiss99) (seed : Nat) :
    (is_permutation (mix_rng_state.construct seed_rng next seed).dst_seq ∧
        is_permutation (mix_rng_state.construct seed_rng next seed).src_seq) ∧
      (List.ofFn (mix_rng_state.construct seed_rng next seed).dst_seq).Perm (List.range 32) ∧
      (List.ofFn (mix_rng_state.construct seed_rng next seed).src_seq).Perm (List.range 32) := by
  have h := shuffle_perm next num_regs (le_refl _) (seed_rng seed, identity_seq, identity_seq)
  have hd : (List.ofFn (mix_rng_state.construct seed_rng next seed).dst_seq).Perm
      (List.range num_regs) := by
    have := h.1
    rw [identity_seq_list] at this
    exact this
  have hs : (List.ofFn (mix_rng_state.construct seed_rng next seed).src_seq).Perm
      (List.range num_regs) := by
    have := h.2
    rw [identity_seq_list] at this
    exact this
  exact ⟨⟨is_permutation_of_perm _ hd, is_permutation_of_perm _ hs⟩, hd, hs⟩

/-- C6. Period stability: two block numbers with the same quotient by `period_length` (the
truncating division of `int`) get mix RNG states with identical destination and source
sequences. -/
theorem period_stability (kiss99 : Type) (seed_rng : Nat → kiss99)
    (next : kiss99 → Nat × kiss99) (bn1 bn2 : Int)
    (h : Int.tdiv bn1 period_length = Int.tdiv bn2 period_length) :
    (program_state seed_rng next bn1).dst_seq = (program_state seed_rng next bn2).dst_seq ∧
      (program_state seed_rng next bn1).src_seq = (program_state seed_rng next bn2).src_seq := by
  simp only [program_state, program_seed, h, and_self]

/-- Witness of C6: blocks 100 and 149 lie in period 2; the generator is a 32-bit linear
congruential step. -/
theorem period_stability_witness :
    Int.tdiv 100 period_length = Int.tdiv 149 period_length ∧
      ((program_state (fun seed => seed % 2 ^ 32)
            (fun r => (r / 2 ^ 16, (69069 * r + 1234567) % 2 ^ 32)) 100).dst_seq
          = (program_state (fun seed => seed % 2 ^ 32)
            (fun r => (r / 2 ^ 16, (69069 * r + 1234567) % 2 ^ 32)) 149).dst_seq ∧
        (program_state (fun seed => seed % 2 ^ 32)
            (fun r => (r / 2 ^ 16, (69069 * r + 1234567) % 2 ^ 32)) 100).src_seq
          = (program_state (fun seed => seed % 2 ^ 32)
            (fun r => (r / 2 ^ 16, (69069 * r + 1234567) % 2 ^ 32)) 149).src_seq) :=
  ⟨by decide, period_stability Nat _ _ 100 149 (by decide)⟩

/-! ## L1 cache -/

/-- After `n` iterations of the copy loop the entries below `n` hold the dataset words of their
index and the others are as before. -/
theorem build_l1_cache_loop_apply (context : epoch_context) :
    ∀ (n : Nat) (h : n ≤ l1_cache_num_items) (cache : l1_cache) (i : Fin l1_cache_num_items),
      build_l1_cache_loop context n h cache i
        = if i.val < n then context.word i.val else cache i
  | 0, _, _, _ => by simp [build_l1_cache_loop]
  | n + 1, h, cache, i => by
    simp only [build_l1_cache_loop]
    by_cases hi : i = ⟨n, h⟩
    · subst hi
      simp
    · rw [Function.update_noteq hi, build_l1_cache_loop_apply context n (Nat.le_of_succ_le h)]
      have hne : i.val ≠ n := fun e => hi (Fin.ext e)
      by_cases hlt : i.val < n
      · simp [hlt, Nat.lt_succ_of_lt hlt]
      · have : ¬ i.val < n + 1 := by omega
        simp [hlt, this]

/-- Every entry of the built cache is the dataset word of its index, whatever the array held
before. -/
theorem build_l1_cache_apply (cache : l1_cache) (context : epoch_context)
    (i : Fin l1_cache_num_items) : build_l1_cache cache context i = context.word i.val := by
  simp only [build_l1_cache]
  rw [build_l1_cache_loop_apply]
  simp [i.isLt]

/-- C7. Cache build correctness: for every epoch context whose dataset holds at least
`l1_cache_num_items` words, after `build_l1_cache(cache, context)` the array equals the first
4096 words of the dataset: `cache[i]` is dataset word `i` for every `i < 4096`. -/
theorem cache_build_correctness (cache : l1_cache) (context : epoch_context)
    (h : l1_cache_num_items ≤ context.dataset.length) :
    List.ofFn (build_l1_cache cache context) = context.dataset.take 4096 ∧
      ∀ i : Fin l1_cache_num_items,
        context.dataset[i.val]? = some (build_l1_cache cache context i) := by
  have hpt : ∀ i : Fin l1_cache_num_items,
      context.dataset[i.val]? = some (build_l1_cache cache context i) := by
    intro i
    have hi : i.val < context.dataset.length := lt_of_lt_of_le i.isLt h
    rw [build_l1_cache_apply, epoch_context.word, Nat.mod_eq_of_lt hi,
      List.getD_eq_getElem _ _ hi, List.getElem?_eq_getElem hi]
  refine ⟨?_, hpt⟩
  apply List.ext_getElem?
  intro n
  by_cases hn : n < l1_cache_num_items
  · have h1 : (List.ofFn (build_l1_cache cache context))[n]?
        = some (build_l1_cache cache context ⟨n, hn⟩) := by
      rw [List.getElem?_eq_getElem (by simpa using hn)]
      simp
    have hn2 : n < 4096 := hn
    rw [h1, List.getElem?_take_of_lt hn2]
    exact (hpt ⟨n, hn⟩).symm
  · have hn2 : 4096 ≤ n := Nat.le_of_not_lt hn
    rw [List.getElem?_eq_none (by simpa using hn2),
      List.getElem?_eq_none (by simp; omega)]

/-- Witness of C7: a dataset of 5000 words, word `i` being `3 * i + 1`, and an array that held
the value 7 everywhere. -/
theorem cache_build_correctness_witness :
    l1_cache_num_items
        ≤ (epoch_context.mk ((List.range 5000).map (3 * · + 1))).dataset.length ∧
      (List.ofFn (build_l1_cache (fun _ => 7)
            (epoch_context.mk ((List.range 5000).map (3 * · + 1))))
          = (epoch_context.mk ((List.range 5000).map (3 * · + 1))).dataset.take 4096 ∧
        ∀ i : Fin l1_cache_num_items,
          (epoch_context.mk ((List.range 5000).map (3 * · + 1))).dataset[i.val]?
            = some (build_l1_cache (fun _ => 7)
                (epoch_context.mk ((List.range 5000).map (3 * · + 1))) i)) :=
  ⟨by simp [l1_cache_num_items, l1_cache_size, sizeof_uint32_t],
    cache_build_correctness _ _ (by simp [l1_cache_num_items, l1_cache_size, sizeof_uint32_t])⟩

/-! ## Operator families -/

/-- C8. `random_math` is total and indexed by `selector mod 11`: for all `a`, `b` and every
selector `s`, `random_math(a, b, s) = random_math(a, b, s mod 11)`; the value is that of one of
the 11 operations of the table, the one of index `s mod 11`, and each of the 11 operations is
the one applied for some selector (the selectors 0 to 10). -/
theorem random_math_selector_mod (op9 op10 : Nat → Nat → Nat) (a b s : Nat) :
    random_math op9 op10 a b s = random_math op9 op10 a b (s % 11) ∧
      (∃ k : Fin math_operation_count,
        k.val = s % 11 ∧ random_math op9 op10 a b s = math_operation op9 op10 k a b) ∧
      ∀ k : Fin math_operation_count,
        random_math op9 op10 a b k.val = math_operation op9 op10 k a b := by
  refine ⟨?_, ⟨⟨s % math_operation_count, Nat.mod_lt _ (by decide)⟩, rfl, rfl⟩, ?_⟩
  · simp only [random_math, math_operation_count, Nat.mod_mod]
  · intro k
    simp only [random_math]
    congr 1
    exact Fin.ext (Nat.mod_eq_of_lt k.isLt)

/-- C9. `random_merge` selects its merge formula by `selector mod 4`: for all `a`, `b` and every
selector `s`, `random_merge(a, b, s)` leaves in `a` the same value as `random_merge(a, b, s mod
4)`; that value is the one of entry `s mod 4` of the table of 4 merge formulas, and each of the
4 formulas is the one applied for some selector (the selectors 0 to 3). -/
theorem random_merge_selector_mod (formula : Fin merge_count → Nat → Nat → Nat)
    (a b s : Nat) :
    random_merge formula a b s = random_merge formula a b (s % 4) ∧
      (∃ k : Fin merge_count, k.val = s % 4 ∧ random_merge formula a b s = formula k a b) ∧
      ∀ k : Fin merge_count, random_merge formula a b k.val = formula k a b := by
  have h : merge_index s = merge_index (s % 4) :=
    Fin.ext (by simp only [merge_index, merge_count, Nat.mod_mod])
  refine ⟨?_, ⟨merge_index s, rfl, rfl⟩, ?_⟩
  · simp only [random_merge, h]
  · intro k
    simp only [random_merge]
    congr 1
    exact Fin.ext (Nat.mod_eq_of_lt k.isLt)

/-! ## Keccak-f800 hash pair -/

/-- The big-endian value of eight bytes, written out. -/
theorem be_uint_eight (b0 b1 b2 b3 b4 b5 b6 b7 : Nat) :
    be_uint [b0, b1, b2, b3, b4, b5, b6, b7]
      = b0 * 256 ^ 7 + b1 * 256 ^ 6 + b2 * 256 ^ 5 + b3 * 256 ^ 4 + b4 * 256 ^ 3
        + b5 * 256 ^ 2 + b6 * 256 + b7 := by
  simp only [be_uint, List.foldl]
  ring

/-- C5. For every header hash, nonce and mix hash, `keccak_progpow_64` is the first 8 bytes of
`keccak_progpow_256` of the same arguments read as a big-endian 64-bit integer: byte 0 is the
most significant, byte 7 the least. -/
theorem keccak_progpow_64_is_big_endian_prefix (K : keccak) (header_hash : hash256)
    (nonce : Nat) (mix_hash : hash256) :
    keccak_progpow_64 K header_hash nonce mix_hash
      = keccak_progpow_256 K header_hash nonce mix_hash 0 * 256 ^ 7
        + keccak_progpow_256 K header_hash nonce mix_hash 1 * 256 ^ 6
        + keccak_progpow_256 K header_hash nonce mix_hash 2 * 256 ^ 5
        + keccak_progpow_256 K header_hash nonce mix_hash 3 * 256 ^ 4
        + keccak_progpow_256 K header_hash nonce mix_hash 4 * 256 ^ 3
        + keccak_progpow_256 K header_hash nonce mix_hash 5 * 256 ^ 2
        + keccak_progpow_256 K header_hash nonce mix_hash 6 * 256
        + keccak_progpow_256 K header_hash nonce mix_hash 7 := by
  simp only [keccak_progpow_64, keccak_progpow_256, List.ofFn_succ, List.ofFn_zero,
    be_uint_eight]
  rfl

/-! ## Main hash loop -/

/-- C4. For every epoch context, block number, header hash and nonce, the result `r` of `hash`
satisfies `r.final_digest = keccak_progpow_256(header_hash, nonce, r.mix_digest)`. -/
theorem final_digest_from_mix_digest (kiss99 lanes : Type) (K : keccak)
    (E : mix_engine kiss99 lanes) (cache_buffer : l1_cache) (context : epoch_context)
    (block_number : Int) (header_hash : hash256) (nonce : Nat) :
    (hash K E cache_buffer context block_number header_hash nonce).final_digest
      = keccak_progpow_256 K header_hash nonce
          (hash K E cache_buffer context block_number header_hash nonce).mix_digest := by
  simp only [hash]

/-- Whatever program an invocation uses, its final digest is
`keccak_progpow_256(header_hash, nonce, mix_digest)` of its mix digest. -/
theorem hash_reusing_final_digest {kiss99 lanes : Type} (K : keccak)
    (E : mix_engine kiss99 lanes) (last : Option (program_cache kiss99))
    (cache_buffer : l1_cache) (context : epoch_context) (block_number : Int)
    (header_hash : hash256) (nonce : Nat) :
    (hash_reusing K E last cache_buffer context block_number header_hash nonce).1.final_digest
      = keccak_progpow_256 K header_hash nonce
          (hash_reusing K E last cache_buffer context block_number header_hash
            nonce).1.mix_digest :=
  rfl

/-- C11. The L1 cache holds exactly 4096 32-bit words: `l1_cache_num_items` is
`l1_cache_size / sizeof(uint32_t) = (16 * 1024) / 4 = 4096`, and the division leaves no
remainder. -/
theorem l1_cache_num_items_eq :
    l1_cache_num_items = l1_cache_size / sizeof_uint32_t ∧
      l1_cache_size / sizeof_uint32_t = (16 * 1024) / 4 ∧
      l1_cache_num_items = 4096 ∧
      l1_cache_size % sizeof_uint32_t = 0 ∧
      l1_cache_num_items * sizeof_uint32_t = l1_cache_size := by
  refine ⟨rfl, ?_, ?_, ?_, ?_⟩ <;> decide

/-! ## Frame and index safety of the cursors -/

/-- C12. Independent cursors: `next_dst` changes `dst_counter` only and leaves `dst_seq`,
`src_seq`, `src_counter` and `rng` as they were; `next_src` changes `src_counter` only and
leaves `dst_seq`, `src_seq`, `dst_counter` and `rng` as they were; so the two sequences are
permutations of `{0, ..., 31}` after a call exactly when they were before it. -/
theorem independent_cursors (kiss99 : Type) (w : Nat) (s : mix_rng_state kiss99) :
    ((s.next_dst w).2 = { s with dst_counter := (s.dst_counter + 1) % 2 ^ w } ∧
        (s.next_dst w).2.dst_seq = s.dst_seq ∧ (s.next_dst w).2.src_seq = s.src_seq ∧
        (s.next_dst w).2.src_counter = s.src_counter ∧ (s.next_dst w).2.rng = s.rng) ∧
      ((s.next_src w).2 = { s with src_counter := (s.src_counter + 1) % 2 ^ w } ∧
        (s.next_src w).2.dst_seq = s.dst_seq ∧ (s.next_src w).2.src_seq = s.src_seq ∧
        (s.next_src w).2.dst_counter = s.dst_counter ∧ (s.next_src w).2.rng = s.rng) ∧
      ((is_permutation (s.next_dst w).2.dst_seq ∧ is_permutation (s.next_dst w).2.src_seq
          ↔ is_permutation s.dst_seq ∧ is_permutation s.src_seq) ∧
        (is_permutation (s.next_src w).2.dst_seq ∧ is_permutation (s.next_src w).2.src_seq
          ↔ is_permutation s.dst_seq ∧ is_permutation s.src_seq)) :=
  ⟨⟨rfl, rfl, rfl, rfl, rfl⟩, ⟨rfl, rfl, rfl, rfl, rfl⟩, Iff.rfl, Iff.rfl⟩

/-- The checked read of an array, listed in index order, at an index below its length yields
the entry at that index. -/
theorem ofFn_read_eq {n : Nat} (a : Fin n → Nat) (i : Nat) (h : i < n) :
    (List.ofFn a)[i]? = some (a ⟨i, h⟩) := by
  rw [List.getElem?_eq_getElem (by simpa using h), List.getElem_ofFn]

/-- C13. Index safety: for every value of `dst_counter` and `src_counter`, the index
`counter mod num_regs` used by `next_dst` / `next_src` is below 32, the length of `dst_seq` and
`src_seq`; the read of the array at that index is in bounds and yields the returned value. -/
theorem index_safety (kiss99 : Type) (w : Nat) (s : mix_rng_state kiss99) :
    (s.dst_index = s.dst_counter % num_regs ∧ s.src_index = s.src_counter % num_regs) ∧
      (s.dst_index < 32 ∧ s.src_index < 32) ∧
      ((List.ofFn s.dst_seq).length = 32 ∧ (List.ofFn s.src_seq).length = 32) ∧
      (List.ofFn s.dst_seq)[s.dst_index]? = some (s.next_dst w).1 ∧
      (List.ofFn s.src_seq)[s.src_index]? = some (s.next_src w).1 := by
  have hd : s.dst_index < num_regs := Nat.mod_lt _ (by decide)
  have hs : s.src_index < num_regs := Nat.mod_lt _ (by decide)
  exact ⟨⟨rfl, rfl⟩, ⟨hd, hs⟩, ⟨List.length_ofFn _, List.length_ofFn _⟩,
    ofFn_read_eq s.dst_seq s.dst_index hd, ofFn_read_eq s.src_seq s.src_index hs⟩

/-! ## Windows of 32 calls -/

/-- A permutation of `{0, ..., num_regs - 1}` lists, in index order, a rearrangement of
`0, ..., num_regs - 1`. -/
theorem perm_of_is_permutation (a : reg_seq) (h : is_permutation a) :
    (List.ofFn a).Perm (List.range num_regs) := by
  have hsub : List.range num_regs ⊆ List.ofFn a := by
    intro v hv
    have hc := h v (List.mem_range.1 hv)
    exact List.count_pos_iff.1 (by omega)
  have hlen : (List.ofFn a).length ≤ (List.range num_regs).length := by
    rw [List.length_ofFn, List.length_range]
  exact ((List.subperm_of_subset (List.nodup_range num_regs) hsub).perm_of_length_le hlen).symm

/-- Reading an array at the residues of `c, c + 1, ..., c + 31` lists its entries rotated by
`c` places. -/
theorem map_residues_eq_rotate (a : reg_seq) (c : Nat) :
    ((List.range num_regs).map fun k => a ⟨(c + k) % num_regs, Nat.mod_lt _ (by decide)⟩)
      = (List.ofFn a).rotate c := by
  apply List.ext_getElem
  · rw [List.length_map, List.length_range, List.length_rotate, List.length_ofFn]
  · intro k h1 h2
    rw [List.getElem_map, List.getElem_range, List.getElem_rotate, List.getElem_ofFn]
    congr 1
    apply Fin.ext
    simp only [List.length_ofFn, Nat.add_comm]

/-- The window of calls `m + 1, ..., m + 32` of `next_dst` lists `dst_seq` rotated by
`dst_counter + m` places. -/
theorem window_dst_eq_rotate {kiss99 : Type} (w : Nat) (hw : 5 ≤ w) (s : mix_rng_state kiss99)
    (m : Nat) : window_dst w s m = (List.ofFn s.dst_seq).rotate (s.dst_counter + m) := by
  rw [← map_residues_eq_rotate]
  simp only [window_dst]
  apply List.map_congr_left
  intro k _
  rw [mix_rng_state.nth_dst_eq w hw]
  congr 1
  apply Fin.ext
  show (_ + (m + k + 1 - 1)) % num_regs = (_ + m + k) % num_regs
  rw [Nat.add_sub_cancel, Nat.add_assoc]

/-- The window of calls `m + 1, ..., m + 32` of `next_src` lists `src_seq` rotated by
`src_counter + m` places. -/
theorem window_src_eq_rotate {kiss99 : Type} (w : Nat) (hw : 5 ≤ w) (s : mix_rng_state kiss99)
    (m : Nat) : window_src w s m = (List.ofFn s.src_seq).rotate (s.src_counter + m) := by
  rw [← map_residues_eq_rotate]
  simp only [window_src]
  apply List.map_congr_left
  intro k _
  rw [mix_rng_state.nth_src_eq w hw]
  congr 1
  apply Fin.ext
  show (_ + (m + k + 1 - 1)) % num_regs = (_ + m + k) % num_regs
  rw [Nat.add_sub_cancel, Nat.add_assoc]

/-- A list that rearranges `0, ..., num_regs - 1` has no repetition and only entries below
`num_regs`. -/
theorem nodup_and_bounded_of_perm (l : List Nat) (h : l.Perm (List.range num_regs)) :
    l.Nodup ∧ l.all (fun x => decide (x < num_regs)) = true := by
  refine ⟨h.nodup_iff.2 (List.nodup_range num_regs), ?_⟩
  rw [List.all_eq_true]
  intro x hx
  exact decide_eq_true (List.mem_range.1 (h.subset hx))

/-- C14. Full coverage per window: if `dst_seq` is a permutation of `{0, ..., 31}`, then from
any cursor value the 32 consecutive calls `m + 1, ..., m + 32` of `next_dst` (any `m`) return
every register index of `{0, ..., 31}` exactly once: the returned values are a rearrangement of
`0, ..., 31`, none occurs twice and all are below `num_regs`. The same holds for `next_src` and
`src_seq`. The width `w` of `size_t` is any width of at least five bits. -/
theorem full_coverage_per_window (kiss99 : Type) (w : Nat) (hw : 5 ≤ w)
    (s : mix_rng_state kiss99) (m : Nat) :
    (is_permutation s.dst_seq →
        (window_dst w s m).Perm (List.range num_regs) ∧ (window_dst w s m).Nodup ∧
          (window_dst w s m).all (fun x => decide (x < num_regs)) = true) ∧
      (is_permutation s.src_seq →
        (window_src w s m).Perm (List.range num_regs) ∧ (window_src w s m).Nodup ∧
          (window_src w s m).all (fun x => decide (x < num_regs)) = true) := by
  constructor
  · intro h
    have hp : (window_dst w s m).Perm (List.range num_regs) := by
      rw [window_dst_eq_rotate w hw]
      exact (List.rotate_perm _ _).trans (perm_of_is_permutation _ h)
    exact ⟨hp, nodup_and_bounded_of_perm _ hp⟩
  · intro h
    have hp : (window_src w s m).Perm (List.range num_regs) := by
      rw [window_src_eq_rotate w hw]
      exact (List.rotate_perm _ _).trans (perm_of_is_permutation _ h)
    exact ⟨hp, nodup_and_bounded_of_perm _ hp⟩

/-- Witness of C14: a 64-bit `size_t`, the destination cursor five calls below the top of the
range (the window crosses the wrap), `dst_seq` the reversed identity and `src_seq` the
permutation `i ↦ (5 i + 3) mod 32`, the window of calls 4 to 35. -/
theorem full_coverage_per_window_witness :
    5 ≤ 64 ∧
      is_permutation (mix_rng_state.mk () (2 ^ 64 - 5) (fun i => 31 - i.val) 7
        (fun i => (5 * i.val + 3) % 32)).dst_seq ∧
      is_permutation (mix_rng_state.mk () (2 ^ 64 - 5) (fun i => 31 - i.val) 7
        (fun i => (5 * i.val + 3) % 32)).src_seq ∧
      ((window_dst 64 (mix_rng_state.mk () (2 ^ 64 - 5) (fun i => 31 - i.val) 7
            (fun i => (5 * i.val + 3) % 32)) 3).Perm (List.range num_regs) ∧
        (window_dst 64 (mix_rng_state.mk () (2 ^ 64 - 5) (fun i => 31 - i.val) 7
            (fun i => (5 * i.val + 3) % 32)) 3).Nodup ∧
        (window_dst 64 (mix_rng_state.mk () (2 ^ 64 - 5) (fun i => 31 - i.val) 7
            (fun i => (5 * i.val + 3) % 32)) 3).all (fun x => decide (x < num_regs)) = true) ∧
      ((window_src 64 (mix_rng_state.mk () (2 ^ 64 - 5) (fun i => 31 - i.val) 7
            (fun i => (5 * i.val + 3) % 32)) 3).Perm (List.range num_regs) ∧
        (window_src 64 (mix_rng_state.mk () (2 ^ 64 - 5) (fun i => 31 - i.val) 7
            (fun i => (5 * i.val + 3) % 32)) 3).Nodup ∧
        (window_src 64 (mix_rng_state.mk () (2 ^ 64 - 5) (fun i => 31 - i.val) 7
            (fun i => (5 * i.val + 3) % 32)) 3).all (fun x => decide (x < num_regs)) = true) :=
  ⟨by decide, by decide, by decide,
    (full_coverage_per_window Unit 64 (by decide) _ 3).1 (by decide),
    (full_coverage_per_window Unit 64 (by decide) _ 3).2 (by decide)⟩

/-! ## Interleaved calls -/

/-- A call of `next_src` before `k` calls of `next_dst` can be moved after them. -/
theorem mix_rng_state.after_dst_next_src {kiss99 : Type} (w : Nat) (k : Nat)
    (s : mix_rng_state kiss99) :
    mix_rng_state.after_dst w k (s.next_src w).2
      = ((mix_rng_state.after_dst w k s).next_src w).2 := by
  induction k generalizing s with
  | zero => rfl
  | succ k ih =>
    simp only [mix_rng_state.after_dst]
    rw [← ih]
    rfl

/-- A call of `next_dst` before `k` calls of `next_src` can be moved after them. -/
theorem mix_rng_state.after_src_next_dst {kiss99 : Type} (w : Nat) (k : Nat)
    (s : mix_rng_state kiss99) :
    mix_rng_state.after_src w k (s.next_dst w).2
      = ((mix_rng_state.after_src w k s).next_dst w).2 := by
  induction k generalizing s with
  | zero => rfl
  | succ k ih =>
    simp only [mix_rng_state.after_src]
    rw [← ih]
    rfl

/-- A call of `next_src` does not change what the `n`-th call of `next_dst` returns. -/
theorem mix_rng_state.nth_dst_next_src {kiss99 : Type} (w : Nat) (s : mix_rng_state kiss99)
    (n : Nat) : (s.next_src w).2.nth_dst w n = s.nth_dst w n := by
  simp only [mix_rng_state.nth_dst]
  rw [mix_rng_state.after_dst_next_src]
  rfl

/-- A call of `next_dst` does not change what the `n`-th call of `next_src` returns. -/
theorem mix_rng_state.nth_src_next_dst {kiss99 : Type} (w : Nat) (s : mix_rng_state kiss99)
    (n : Nat) : (s.next_dst w).2.nth_src w n = s.nth_src w n := by
  simp only [mix_rng_state.nth_src]
  rw [mix_rng_state.after_src_next_dst]
  rfl

/-- In any schedule the `k`-th value returned by `next_dst` is the one that the `k`-th of `k`
consecutive calls of `next_dst` returns. -/
theorem dst_trace_eq {kiss99 : Type} (w : Nat) (calls : List Bool) :
    ∀ s : mix_rng_state kiss99,
      dst_trace w calls s
        = (List.range (calls.count true)).map fun k => s.nth_dst w (k + 1) := by
  induction calls with
  | nil => intro s; rfl
  | cons c calls ih =>
    intro s
    cases c with
    | true =>
      simp only [dst_trace, List.count_cons_self, List.range_succ_eq_map, List.map_cons,
        List.map_map, ih]
      rfl
    | false =>
      simp only [dst_trace, ih, mix_rng_state.nth_dst_next_src]
      rw [List.count_cons_of_ne (by decide)]

/-- In any schedule the `k`-th value returned by `next_src` is the one that the `k`-th of `k`
consecutive calls of `next_src` returns. -/
theorem src_trace_eq {kiss99 : Type} (w : Nat) (calls : List Bool) :
    ∀ s : mix_rng_state kiss99,
      src_trace w calls s
        = (List.range (calls.count false)).map fun k => s.nth_src w (k + 1) := by
  induction calls with
  | nil => intro s; rfl
  | cons c calls ih =>
    intro s
    cases c with
    | false =>
      simp only [src_trace, List.count_cons_self, List.range_succ_eq_map, List.map_cons,
        List.map_map, ih]
      rfl
    | true =>
      simp only [src_trace, ih, mix_rng_state.nth_src_next_dst]
      rw [List.count_cons_of_ne (by decide)]

/-- C15. `next_dst` and `next_src` commute: from every state, `next_dst` then `next_src` yields
the same two returned values and the same final state as `next_src` then `next_dst`; and in
every schedule of calls the `k`-th value returned by `next_dst` is the one returned by the
`k`-th of `k` consecutive calls of `next_dst`, however many calls of `next_src` come before it
(and likewise with the two exchanged). -/
theorem next_dst_next_src_commute (kiss99 : Type) (w : Nat) (s : mix_rng_state kiss99)
    (calls : List Bool) :
    ((s.next_dst w).1 = ((s.next_src w).2.next_dst w).1 ∧
        ((s.next_dst w).2.next_src w).1 = (s.next_src w).1 ∧
        ((s.next_dst w).2.next_src w).2 = ((s.next_src w).2.next_dst w).2) ∧
      dst_trace w calls s
        = (List.range (calls.count true)).map (fun k => s.nth_dst w (k + 1)) ∧
      src_trace w calls s
        = (List.range (calls.count false)).map (fun k => s.nth_src w (k + 1)) :=
  ⟨⟨rfl, rfl, rfl⟩, dst_trace_eq w calls s, src_trace_eq w calls s⟩

end progpow
